import Mathlib

/-!
Verification development for the Topic-bot per-guild state core.

The definitions below are shallow embeddings of the Python sources:
  - bot/models.py      : MessageEntry, Topic, GuildEntry, GuildTopicState, RenderedTopics
  - bot/services/topics.py : normalize_entry_and_topics, find_first_available_message,
                             add_topic_to_state, remove_topic_from_state, has_emoji,
                             save_state, locked_state session shape
  - bot/rendering.py   : format_topic_entry, build_topics_payload
  - bot/config.py      : MAX_TOPICS_PER_MESSAGE, TOPIC_ENTRY_TEMPLATE, TOPICS_EMPTY_MESSAGE

Python ints are modelled as Int, strings as String, lists as List, optional
values as Option.  In-place mutation is modelled by returning the updated
value; functions that both mutate and return a value return a pair.
-/

set_option maxRecDepth 8000

namespace TopicBot

/-- Embedding of models.MessageEntry: metadata about one topics message. -/
structure MessageEntry where
  message_id : String
  count : Int
deriving DecidableEq, Repr

/-- Embedding of models.Topic: a single topic entry. -/
structure Topic where
  id : String
  emoji : String
  text : String
  author_id : String
  author_name : String
  message_id : String
deriving DecidableEq, Repr

/-- Embedding of models.GuildEntry: the registry entry (board) for a guild channel. -/
structure GuildEntry where
  channel_id : String
  welcome_message_id : String
  board_header_message_id : String
  contributors_message_id : String
  notification_message_id : String
  messages : List MessageEntry
  registry_dirty : Bool
deriving DecidableEq, Repr

/-- Embedding of GuildTopicState as constructed in services/topics.py
(guild id, channel id, optional entry, topics, two dirty flags). -/
structure GuildTopicState where
  guild_id : Int
  channel_id : Int
  entry : Option GuildEntry
  topics : List Topic
  registry_dirty : Bool
  topics_dirty : Bool
deriving DecidableEq, Repr

/-- config.MAX_TOPICS_PER_MESSAGE. -/
def MAX_TOPICS_PER_MESSAGE : Int := 10

/-- config.TOPICS_EMPTY_MESSAGE. -/
def TOPICS_EMPTY_MESSAGE : String := "No topics yet. Add one with /addtopic."

/-- The slot ids of a board, in stored order. -/
def slotIds (e : GuildEntry) : List String :=
  e.messages.map (fun m => m.message_id)

/-- One iteration of the topic loop inside normalize_entry_and_topics.
The accumulator carries the topics rebuilt so far, the running counts
table (the Python dict, whose key set stays exactly the slot-id set, seen
here through membership in slotIds), and the topics_changed flag. -/
def normStep (ids : List String) (primary : String)
    (acc : List Topic × (String → Nat) × Bool) (topic : Topic) :
    List Topic × (String → Nat) × Bool :=
  let reassign := (topic.message_id == "") || !(ids.contains topic.message_id)
  let topic1 := if reassign then { topic with message_id := primary } else topic
  let counts := acc.2.1
  (acc.1 ++ [topic1],
   fun mid => if mid == topic1.message_id then counts mid + 1 else counts mid,
   acc.2.2 || reassign)

/-- Embedding of services.topics.normalize_entry_and_topics.
Returns (entry, topics, registry_changed, topics_changed). -/
def normalize_entry_and_topics (entry : Option GuildEntry) (topics : List Topic) :
    Option GuildEntry × List Topic × Bool × Bool :=
  match entry with
  | none => (none, topics, false, false)
  | some e =>
    match e.messages with
    | [] => (some e, topics, e.registry_dirty, false)
    | m0 :: _ =>
      let ids := slotIds e
      let r := topics.foldl (normStep ids m0.message_id) ([], fun _ => 0, false)
      let topics1 := r.1
      let counts := r.2.1
      let topics_changed := r.2.2
      let messages1 := e.messages.map
        (fun m => { m with count := (counts m.message_id : Int) })
      let registry_changed := e.registry_dirty ||
        e.messages.any (fun m => m.count != (counts m.message_id : Int))
      (some { e with messages := messages1 }, topics1, registry_changed, topics_changed)

/-- Embedding of services.topics.find_first_available_message. -/
def find_first_available_message (entry : GuildEntry) : Option MessageEntry :=
  entry.messages.find? (fun m => m.count < MAX_TOPICS_PER_MESSAGE)

/-- The loop in add_topic_to_state over entry.messages: increment the count of
the first slot whose message_id matches, and report whether one was found. -/
def bumpFirst (messages : List MessageEntry) (mid : String) :
    List MessageEntry × Bool :=
  match messages with
  | [] => ([], false)
  | m :: rest =>
    if m.message_id == mid then ({ m with count := m.count + 1 } :: rest, true)
    else
      let r := bumpFirst rest mid
      (m :: r.1, r.2)

/-- Embedding of services.topics.add_topic_to_state.  The Python code draws
the topic id from uuid4().hex; the id is passed here as the new_id argument.
Returns the created topic together with the updated state. -/
def add_topic_to_state (state : GuildTopicState)
    (new_id emoji text author_id author_name message_id : String) :
    Topic × GuildTopicState :=
  let topic : Topic :=
    { id := new_id, emoji := emoji, text := text,
      author_id := author_id, author_name := author_name, message_id := message_id }
  let state1 := { state with topics := state.topics ++ [topic], topics_dirty := true }
  match state1.entry with
  | none => (topic, state1)
  | some e =>
    let r := bumpFirst e.messages message_id
    if r.2 then
      (topic, { state1 with entry := some { e with messages := r.1 },
                            registry_dirty := true })
    else
      (topic, { state1 with entry := some { e with messages := r.1 } })

/-- The loop in remove_topic_from_state over entry.messages: decrement,
floored at 0, the count of the first slot whose message_id matches, and
report whether one was found. -/
def decFirst (messages : List MessageEntry) (mid : String) :
    List MessageEntry × Bool :=
  match messages with
  | [] => ([], false)
  | m :: rest =>
    if m.message_id == mid then
      ({ m with count := max (m.count - 1) 0 } :: rest, true)
    else
      let r := decFirst rest mid
      (m :: r.1, r.2)

/-- Embedding of services.topics.remove_topic_from_state.
Returns the removed topic (if any) together with the updated state. -/
def remove_topic_from_state (state : GuildTopicState) (topic_id : String) :
    Option Topic × GuildTopicState :=
  match state.topics.find? (fun t => t.id == topic_id) with
  | none => (none, state)
  | some target =>
    let state1 := { state with
      topics := state.topics.filter (fun t => !(t.id == topic_id)),
      topics_dirty := true }
    match state1.entry with
    | none => (some target, state1)
    | some e =>
      let r := decFirst e.messages target.message_id
      if r.2 then
        (some target, { state1 with entry := some { e with messages := r.1 },
                                    registry_dirty := true })
      else
        (some target, { state1 with entry := some { e with messages := r.1 } })

/-- Embedding of services.topics.has_emoji. -/
def has_emoji (state : GuildTopicState) (emoji : String) : Bool :=
  state.topics.any (fun t => t.emoji == emoji)

/-- Embedding of rendering.format_topic_entry: the fixed template
config.TOPIC_ENTRY_TEMPLATE with emoji and text substituted.  The separator
between emoji and text is the exact three-character sequence stored in
config.py. -/
def format_topic_entry (topic : Topic) : String :=
  "> - " ++ topic.emoji ++ " â€” **" ++ topic.text ++ "**"

/-- Embedding of models.RenderedTopics. -/
structure RenderedTopics where
  content : String
  emojis : List String
deriving DecidableEq, Repr

/-- Embedding of rendering.build_topics_payload. -/
def build_topics_payload (topics : List Topic)
    (target_message_id : Option String) : RenderedTopics :=
  let relevant : List Topic :=
    match target_message_id with
    | some tid => topics.filter (fun t => t.message_id == tid)
    | none => topics
  let lines := relevant.map format_topic_entry
  let emojis := relevant.map (fun t => t.emoji)
  { content := if lines.isEmpty then TOPICS_EMPTY_MESSAGE
               else String.intercalate "\n" lines,
    emojis := emojis }

/-- The board document persisted by storage.upsert_board: the image of
GuildEntry.to_dict (which omits the in-memory registry_dirty flag) with the
guild_id key added by save_state. -/
structure BoardDoc where
  guild_id : String
  channel_id : String
  welcome_message_id : String
  board_header_message_id : String
  contributors_message_id : String
  notification_message_id : String
  messages : List MessageEntry
deriving DecidableEq, Repr

/-- GuildEntry.to_dict together with the guild_id key added in save_state. -/
def GuildEntry.to_doc (e : GuildEntry) (guild_id : String) : BoardDoc :=
  { guild_id := guild_id,
    channel_id := e.channel_id,
    welcome_message_id := e.welcome_message_id,
    board_header_message_id := e.board_header_message_id,
    contributors_message_id := e.contributors_message_id,
    notification_message_id := e.notification_message_id,
    messages := e.messages }

/-- The slice of the document store addressed by one (guild_id, channel_id)
key: at most one board document (storage.guild_boards under its unique
index) and the topic documents for that key (storage.topics_collection). -/
structure Store where
  board : Option BoardDoc
  topics : List Topic
deriving DecidableEq, Repr

/-- Embedding of services.topics.save_state over the store slice of the
state's own key.  Returns the state with its dirty flags cleared together
with the updated store. -/
def save_state (state : GuildTopicState) (store : Store) :
    GuildTopicState × Store :=
  let p1 : GuildTopicState × Store :=
    if state.registry_dirty then
      match state.entry with
      | some e =>
        ({ state with registry_dirty := false,
                      entry := some { e with registry_dirty := false } },
         { store with board := some (e.to_doc (toString state.guild_id)) })
      | none =>
        ({ state with registry_dirty := false }, { store with board := none })
    else (state, store)
  let state1 := p1.1
  let store1 := p1.2
  if state1.topics_dirty then
    ({ state1 with topics_dirty := false }, { store1 with topics := state1.topics })
  else (state1, store1)

/-- Outcome of a unit of work run under locked_state: it either returns a
value or raises. -/
inductive UowOutcome (A : Type) where
  | ok (a : A)
  | raised
deriving DecidableEq, Repr

/-- Embedding of the body of services.topics.locked_state after the state
has been loaded: the unit of work runs on the loaded state (mutating it and
either returning or raising), and the finally block then runs save_state on
the resulting state exactly once before the outcome propagates. -/
def run_session {A : Type} (s0 : GuildTopicState) (store : Store)
    (uow : GuildTopicState → GuildTopicState × UowOutcome A) :
    Store × UowOutcome A :=
  let r := uow s0
  let saved := save_state r.1 store
  (saved.2, r.2)

/-- Number of topics currently assigned to the slot with the given id. -/
def memberCount (topics : List Topic) (mid : String) : Nat :=
  (topics.filter (fun t => t.message_id == mid)).length

/-- Sum of the cached slot counts of a board. -/
def sumCounts (e : GuildEntry) : Int :=
  (e.messages.map (fun m => m.count)).sum

/-- One in-session mutation against the aggregate: an add_topic_to_state or
remove_topic_from_state call with its arguments (for add, new_id stands for
the uuid4 hex drawn at the call). -/
inductive TopicOp where
  | add (new_id emoji text author_id author_name message_id : String)
  | remove (topic_id : String)
deriving DecidableEq, Repr

/-- Apply one mutation to the state, discarding the returned topic. -/
def applyOp (s : GuildTopicState) : TopicOp → GuildTopicState
  | .add i em tx a n m => (add_topic_to_state s i em tx a n m).2
  | .remove tid => (remove_topic_from_state s tid).2

/-- Arguments an add call receives in an actual session: a fresh topic id
and a target slot id taken from the present board (find_first_available_message
or register_message both return slot ids of the entry).  Remove calls carry
no argument restriction. -/
def opValid (s : GuildTopicState) : TopicOp → Bool
  | .add i _ _ _ _ m =>
    !((s.topics.map (fun t => t.id)).contains i) &&
    (match s.entry with
     | some e => (slotIds e).contains m
     | none => false)
  | .remove _ => true

/-- Every operation of the sequence is valid in the state it runs against. -/
def validSeq : GuildTopicState → List TopicOp → Bool
  | _, [] => true
  | s, op :: rest => opValid s op && validSeq (applyOp s op) rest

/-- Run a sequence of in-session mutations. -/
def runOps (s : GuildTopicState) (ops : List TopicOp) : GuildTopicState :=
  ops.foldl applyOp s

/-- The state load_state builds after normalization, for a given raw entry
and topic list already decoded from the store. -/
def normState (guild_id channel_id : Int) (entry : Option GuildEntry)
    (topics : List Topic) : GuildTopicState :=
  let r := normalize_entry_and_topics entry topics
  { guild_id := guild_id, channel_id := channel_id,
    entry := r.1, topics := r.2.1,
    registry_dirty := r.2.2.1, topics_dirty := r.2.2.2 }

/-! ### General list helpers shared by the proofs -/

/-- A successful find? splits the list at the first element satisfying the
predicate. -/
theorem find?_decomp {α : Type} {p : α → Bool} :
    ∀ {l : List α} {b : α}, l.find? p = some b →
      ∃ pre post, l = pre ++ b :: post ∧ p b = true ∧ ∀ x ∈ pre, p x = false
  | [], b => by intro h; simp [List.find?] at h
  | a :: l, b => by
    intro h
    by_cases hpa : p a = true
    · have h1 : a = b := by
        simp [List.find?, hpa] at h
        exact h
      subst h1
      exact ⟨[], l, rfl, hpa, by simp⟩
    · have hpa1 : p a = false := by simpa using hpa
      simp [List.find?, hpa1] at h
      obtain ⟨pre, post, hl, hb, hpre⟩ := find?_decomp h
      exact ⟨a :: pre, post, by simp [hl], hb, by
        intro x hx
        rcases List.mem_cons.1 hx with hx | hx
        · simpa [hx] using hpa1
        · exact hpre x hx⟩

/-- find? returns the marked element of a split whose prefix has no match. -/
theorem find?_of_decomp {α : Type} {p : α → Bool} {b : α} :
    ∀ {pre : List α} (post : List α), p b = true → (∀ x ∈ pre, p x = false) →
      (pre ++ b :: post).find? p = some b
  | [], post => by intro hb _; simp [List.find?, hb]
  | a :: pre, post => by
    intro hb hpre
    have ha : p a = false := hpre a (by simp)
    simp only [List.cons_append, List.find?, ha]
    exact find?_of_decomp post hb (fun x hx => hpre x (List.mem_cons_of_mem a hx))

/-- The lengths of the two halves of a filter partition add to the length. -/
theorem length_filter_partition {α : Type} (p : α → Bool) (l : List α) :
    (l.filter p).length + (l.filter (fun a => !(p a))).length = l.length :=
  (List.length_eq_length_filter_add p).symm

/-- A member of a mapped list arises from a first preimage occurrence. -/
theorem mem_map_first_decomp {α β : Type} {f : α → β} {y : β} :
    ∀ {l : List α}, y ∈ l.map f →
      ∃ pre a post, l = pre ++ a :: post ∧ f a = y ∧ ∀ x ∈ pre, f x ≠ y
  | [], h => by simp at h
  | a :: l, h => by
    by_cases ha : f a = y
    · exact ⟨[], a, l, rfl, ha, by simp⟩
    · have hl : y ∈ l.map f := by
        rcases List.mem_map.1 h with ⟨x, hx, hfx⟩
        rcases List.mem_cons.1 hx with rfl | hx
        · exact absurd hfx ha
        · exact List.mem_map.2 ⟨x, hx, hfx⟩
      obtain ⟨pre, b, post, hdec, hfb, hpre⟩ := mem_map_first_decomp hl
      exact ⟨a :: pre, b, post, by simp [hdec], hfb, by
        intro x hx
        rcases List.mem_cons.1 hx with rfl | hx
        · exact ha
        · exact hpre x hx⟩

/-! ### C7: first available slot -/

/-- The board of the concrete example in C7: slots A:10, B:3, C:0. -/
def exampleBoardC7 : GuildEntry :=
  { channel_id := "c", welcome_message_id := "", board_header_message_id := "",
    contributors_message_id := "", notification_message_id := "",
    messages := [⟨"A", 10⟩, ⟨"B", 3⟩, ⟨"C", 0⟩], registry_dirty := false }

/-- C7: find_first_available_message scans the slots in stored order and
returns the first slot whose count is strictly below MAX_TOPICS_PER_MESSAGE
(10); it returns none exactly when every slot has count at least 10; on the
board [A:10, B:3, C:0] it returns B. -/
theorem find_first_available_spec (e : GuildEntry) :
    (∀ m, find_first_available_message e = some m →
      ∃ pre post, e.messages = pre ++ m :: post ∧
        m.count < MAX_TOPICS_PER_MESSAGE ∧
        ∀ x ∈ pre, MAX_TOPICS_PER_MESSAGE ≤ x.count) ∧
    (find_first_available_message e = none ↔
      ∀ m ∈ e.messages, MAX_TOPICS_PER_MESSAGE ≤ m.count) ∧
    find_first_available_message exampleBoardC7 = some ⟨"B", 3⟩ := by
  refine ⟨?_, ?_, by decide⟩
  · intro m hm
    obtain ⟨pre, post, hdec, hp, hpre⟩ := find?_decomp hm
    refine ⟨pre, post, hdec, by simpa using hp, ?_⟩
    intro x hx
    have := hpre x hx
    simpa using this
  · constructor
    · intro h m hm
      have := List.find?_eq_none.1 h m hm
      simpa using this
    · intro h
      apply List.find?_eq_none.2
      intro m hm
      simpa using h m hm

/-- Concrete instance of C7 obtained from the theorem. -/
theorem find_first_available_spec_witness :
    find_first_available_message exampleBoardC7 = some ⟨"B", 3⟩ :=
  (find_first_available_spec exampleBoardC7).2.2

/-! ### C9: render planner -/

/-- The topics build_topics_payload keeps: those on the target message, or
all of them when no target is given. -/
def selectedTopics (topics : List Topic) (target_message_id : Option String) :
    List Topic :=
  match target_message_id with
  | some tid => topics.filter (fun t => t.message_id == tid)
  | none => topics

/-- C9: build_topics_payload keeps exactly the topics on the target message
(all topics when no target is given) in original order, yields one template
line per kept topic joined by newlines, an emoji per kept topic in the same
order, and the fixed empty-state text with no emojis when nothing is kept. -/
theorem build_topics_payload_spec (topics : List Topic)
    (target_message_id : Option String) :
    (build_topics_payload topics target_message_id).emojis =
      (selectedTopics topics target_message_id).map (fun t => t.emoji) ∧
    (build_topics_payload topics target_message_id).emojis.length =
      (selectedTopics topics target_message_id).length ∧
    (selectedTopics topics target_message_id = [] →
      (build_topics_payload topics target_message_id).content =
        TOPICS_EMPTY_MESSAGE) ∧
    (selectedTopics topics target_message_id ≠ [] →
      (build_topics_payload topics target_message_id).content =
        String.intercalate "\n"
          ((selectedTopics topics target_message_id).map format_topic_entry)) := by
  refine ⟨rfl, by simp [build_topics_payload, selectedTopics], ?_, ?_⟩
  · intro h
    simp [build_topics_payload, selectedTopics] at h ⊢
    cases target_message_id <;> simp_all
  · intro h
    simp [build_topics_payload, selectedTopics] at h ⊢
    cases target_message_id <;> simp_all

/-- Concrete instance of C9 obtained from the theorem: empty selection. -/
theorem build_topics_payload_spec_witness :
    (build_topics_payload [] none).content = TOPICS_EMPTY_MESSAGE :=
  (build_topics_payload_spec [] none).2.2.1 rfl

/-! ### Slot-count loop lemmas -/

/-- bumpFirst leaves a list without a matching slot unchanged. -/
theorem bumpFirst_not_found {mid : String} :
    ∀ {l : List MessageEntry}, (∀ x ∈ l, x.message_id ≠ mid) →
      bumpFirst l mid = (l, false)
  | [], _ => rfl
  | m :: l, h => by
    have hm : (m.message_id == mid) = false := by
      simpa using h m (by simp)
    have ih := bumpFirst_not_found (fun x hx => h x (List.mem_cons_of_mem m hx))
    simp [bumpFirst, hm, ih]

/-- bumpFirst increments exactly the first matching slot. -/
theorem bumpFirst_found {mid : String} {m : MessageEntry} (hm : m.message_id = mid) :
    ∀ {pre : List MessageEntry} (post : List MessageEntry),
      (∀ x ∈ pre, x.message_id ≠ mid) →
      bumpFirst (pre ++ m :: post) mid =
        (pre ++ { m with count := m.count + 1 } :: post, true)
  | [], post => by
    intro _
    simp [bumpFirst, hm]
  | a :: pre, post => by
    intro h
    have ha : (a.message_id == mid) = false := by
      simpa using h a (by simp)
    have ih := bumpFirst_found hm post (fun x hx => h x (List.mem_cons_of_mem a hx))
    simp [bumpFirst, ha, ih]

/-- decFirst leaves a list without a matching slot unchanged. -/
theorem decFirst_not_found {mid : String} :
    ∀ {l : List MessageEntry}, (∀ x ∈ l, x.message_id ≠ mid) →
      decFirst l mid = (l, false)
  | [], _ => rfl
  | m :: l, h => by
    have hm : (m.message_id == mid) = false := by
      simpa using h m (by simp)
    have ih := decFirst_not_found (fun x hx => h x (List.mem_cons_of_mem m hx))
    simp [decFirst, hm, ih]

/-- decFirst lowers exactly the first matching slot, floored at 0. -/
theorem decFirst_found {mid : String} {m : MessageEntry} (hm : m.message_id = mid) :
    ∀ {pre : List MessageEntry} (post : List MessageEntry),
      (∀ x ∈ pre, x.message_id ≠ mid) →
      decFirst (pre ++ m :: post) mid =
        (pre ++ { m with count := max (m.count - 1) 0 } :: post, true)
  | [], post => by
    intro _
    simp [decFirst, hm]
  | a :: pre, post => by
    intro h
    have ha : (a.message_id == mid) = false := by
      simpa using h a (by simp)
    have ih := decFirst_found hm post (fun x hx => h x (List.mem_cons_of_mem a hx))
    simp [decFirst, ha, ih]

/-! ### C6: add_topic_to_state -/

/-- Counterexample to C6 as stated: on a state with no registry entry the
add call appends the topic and sets topicsDirty, but registryDirty stays
false, against the claim that both flags are always set. -/
theorem add_topic_spec_cex :
    (add_topic_to_state ⟨1, 2, none, [], false, false⟩
        "i" "em" "tx" "a" "n" "m").2.topics_dirty = true ∧
    (add_topic_to_state ⟨1, 2, none, [], false, false⟩
        "i" "em" "tx" "a" "n" "m").2.registry_dirty = false := by
  constructor <;> rfl

/-- C6 (amended): add_topic_to_state appends exactly one new topic carrying
the supplied fields (its id the freshly drawn uuid hex, passed here as
new_id) to the end of the topics list and sets topicsDirty; when the entry
is present and has a slot whose message_id equals the target id, the first
such slot's count is incremented and registryDirty is set; when the entry
is absent, or no slot matches, entry and registryDirty are unchanged. -/
theorem add_topic_spec (s : GuildTopicState)
    (new_id emoji text author_id author_name message_id : String) :
    (add_topic_to_state s new_id emoji text author_id author_name message_id).1 =
      ⟨new_id, emoji, text, author_id, author_name, message_id⟩ ∧
    (add_topic_to_state s new_id emoji text author_id author_name message_id).2.topics =
      s.topics ++ [⟨new_id, emoji, text, author_id, author_name, message_id⟩] ∧
    (add_topic_to_state s new_id emoji text author_id author_name message_id).2.topics_dirty
      = true ∧
    (s.entry = none →
      (add_topic_to_state s new_id emoji text author_id author_name message_id).2.entry
          = none ∧
      (add_topic_to_state s new_id emoji text author_id author_name message_id).2.registry_dirty
          = s.registry_dirty) ∧
    (∀ e pre m post, s.entry = some e → e.messages = pre ++ m :: post →
      m.message_id = message_id → (∀ x ∈ pre, x.message_id ≠ message_id) →
      (add_topic_to_state s new_id emoji text author_id author_name message_id).2.registry_dirty
          = true ∧
      (add_topic_to_state s new_id emoji text author_id author_name message_id).2.entry
          = some { e with messages := pre ++ { m with count := m.count + 1 } :: post }) ∧
    (∀ e, s.entry = some e → (∀ x ∈ e.messages, x.message_id ≠ message_id) →
      (add_topic_to_state s new_id emoji text author_id author_name message_id).2.entry
          = some e ∧
      (add_topic_to_state s new_id emoji text author_id author_name message_id).2.registry_dirty
          = s.registry_dirty) := by
  refine ⟨?_, ?_, ?_, ?_, ?_, ?_⟩
  · cases hse : s.entry with
    | none => simp [add_topic_to_state, hse]
    | some e =>
      simp only [add_topic_to_state, hse]
      split <;> rfl
  · cases hse : s.entry with
    | none => simp [add_topic_to_state, hse]
    | some e =>
      simp only [add_topic_to_state, hse]
      split <;> rfl
  · cases hse : s.entry with
    | none => simp [add_topic_to_state, hse]
    | some e =>
      simp only [add_topic_to_state, hse]
      split <;> rfl
  · intro hse
    simp [add_topic_to_state, hse]
  · intro e pre m post hse hdec hmid hpre
    have hbump := bumpFirst_found hmid post hpre
    simp [add_topic_to_state, hse, hdec, hbump]
  · intro e hse hnone
    have hbump := bumpFirst_not_found hnone
    simp [add_topic_to_state, hse, hbump]

/-- Concrete instance of C6 (amended) obtained from the theorem. -/
theorem add_topic_spec_witness :
    (add_topic_to_state
        ⟨1, 2, some ⟨"c", "", "", "", "", [⟨"m", 0⟩], false⟩, [], false, false⟩
        "i" "em" "tx" "a" "n" "m").2.registry_dirty = true :=
  ((add_topic_spec
      ⟨1, 2, some ⟨"c", "", "", "", "", [⟨"m", 0⟩], false⟩, [], false, false⟩
      "i" "em" "tx" "a" "n" "m").2.2.2.2.1
    ⟨"c", "", "", "", "", [⟨"m", 0⟩], false⟩ [] ⟨"m", 0⟩ [] rfl rfl rfl
    (by simp)).1

/-! ### Removal helpers shared by C8 and C10 -/

/-- When the removed id occurs, remove_topic_from_state returns the first
occurrence, filters every occurrence out of the topics list, and sets
topicsDirty, whatever the entry does. -/
theorem remove_found_parts (s : GuildTopicState) (topic_id : String)
    (pre : List Topic) (t : Topic) (post : List Topic)
    (hdec : s.topics = pre ++ t :: post) (hid : t.id = topic_id)
    (hpre : ∀ x ∈ pre, x.id ≠ topic_id) :
    (remove_topic_from_state s topic_id).1 = some t ∧
    (remove_topic_from_state s topic_id).2.topics =
      s.topics.filter (fun x => !(x.id == topic_id)) ∧
    (remove_topic_from_state s topic_id).2.topics_dirty = true := by
  have hp : (fun x : Topic => x.id == topic_id) t = true := by simpa using hid
  have hfind : s.topics.find? (fun x => x.id == topic_id) = some t := by
    rw [hdec]
    exact find?_of_decomp post hp (by intro x hx; simpa using hpre x hx)
  cases hse : s.entry with
  | none => simp [remove_topic_from_state, hfind, hse]
  | some e =>
    simp only [remove_topic_from_state, hfind, hse]
    split <;> simp

/-- When the removed id occurs, the entry side of remove_topic_from_state:
the first slot owning the removed topic is lowered (floored at 0) and
registryDirty is set; with no entry, or no owning slot, both are kept. -/
theorem remove_found_entry (s : GuildTopicState) (topic_id : String)
    (pre : List Topic) (t : Topic) (post : List Topic)
    (hdec : s.topics = pre ++ t :: post) (hid : t.id = topic_id)
    (hpre : ∀ x ∈ pre, x.id ≠ topic_id) :
    (s.entry = none →
      (remove_topic_from_state s topic_id).2.entry = none ∧
      (remove_topic_from_state s topic_id).2.registry_dirty = s.registry_dirty) ∧
    (∀ e mpre m mpost, s.entry = some e → e.messages = mpre ++ m :: mpost →
      m.message_id = t.message_id → (∀ x ∈ mpre, x.message_id ≠ t.message_id) →
      (remove_topic_from_state s topic_id).2.registry_dirty = true ∧
      (remove_topic_from_state s topic_id).2.entry =
        some { e with
          messages := mpre ++ { m with count := max (m.count - 1) 0 } :: mpost }) ∧
    (∀ e, s.entry = some e → (∀ x ∈ e.messages, x.message_id ≠ t.message_id) →
      (remove_topic_from_state s topic_id).2.entry = some e ∧
      (remove_topic_from_state s topic_id).2.registry_dirty = s.registry_dirty) := by
  have hp : (fun x : Topic => x.id == topic_id) t = true := by simpa using hid
  have hfind : s.topics.find? (fun x => x.id == topic_id) = some t := by
    rw [hdec]
    exact find?_of_decomp post hp (by intro x hx; simpa using hpre x hx)
  refine ⟨?_, ?_, ?_⟩
  · intro hse
    simp [remove_topic_from_state, hfind, hse]
  · intro e mpre m mpost hse hmdec hmid hmpre
    have hdecf := decFirst_found hmid mpost hmpre
    simp [remove_topic_from_state, hfind, hse, hmdec, hdecf]
  · intro e hse hnone
    have hdecf := decFirst_not_found hnone
    simp [remove_topic_from_state, hfind, hse, hdecf]

/-! ### C8: remove_topic_from_state error handling -/

/-- Counterexample to C8 as stated: removing an existing topic from a state
with no registry entry removes it and sets topicsDirty, but registryDirty
stays false, against the claim that a successful removal sets both dirty
flags. -/
theorem remove_topic_spec_cex :
    (remove_topic_from_state
        ⟨1, 2, none, [⟨"t", "e", "x", "a", "n", "m"⟩], false, false⟩ "t").1 =
      some ⟨"t", "e", "x", "a", "n", "m"⟩ ∧
    (remove_topic_from_state
        ⟨1, 2, none, [⟨"t", "e", "x", "a", "n", "m"⟩], false, false⟩
        "t").2.registry_dirty = false := by
  constructor <;> rfl

/-- C8 (amended): removing an id matching no topic returns none and leaves
the whole state untouched; removing a present id returns its first
occurrence, drops it from the list and sets topicsDirty, and additionally
lowers the first owning slot's count (floored at 0) and sets registryDirty
exactly when the entry is present and owns a matching slot - with no entry,
or no owning slot, entry and registryDirty keep their prior values. -/
theorem remove_topic_spec (s : GuildTopicState) (topic_id : String) :
    ((∀ x ∈ s.topics, x.id ≠ topic_id) →
      remove_topic_from_state s topic_id = (none, s)) ∧
    (∀ pre t post, s.topics = pre ++ t :: post → t.id = topic_id →
      (∀ x ∈ pre, x.id ≠ topic_id) →
      (remove_topic_from_state s topic_id).1 = some t ∧
      (∀ x ∈ (remove_topic_from_state s topic_id).2.topics, x.id ≠ topic_id) ∧
      (remove_topic_from_state s topic_id).2.topics_dirty = true ∧
      (s.entry = none →
        (remove_topic_from_state s topic_id).2.entry = none ∧
        (remove_topic_from_state s topic_id).2.registry_dirty = s.registry_dirty) ∧
      (∀ e mpre m mpost, s.entry = some e → e.messages = mpre ++ m :: mpost →
        m.message_id = t.message_id → (∀ x ∈ mpre, x.message_id ≠ t.message_id) →
        (remove_topic_from_state s topic_id).2.registry_dirty = true ∧
        (remove_topic_from_state s topic_id).2.entry =
          some { e with
            messages := mpre ++ { m with count := max (m.count - 1) 0 } :: mpost }) ∧
      (∀ e, s.entry = some e → (∀ x ∈ e.messages, x.message_id ≠ t.message_id) →
        (remove_topic_from_state s topic_id).2.entry = some e ∧
        (remove_topic_from_state s topic_id).2.registry_dirty = s.registry_dirty)) := by
  constructor
  · intro h
    have hfind : s.topics.find? (fun x => x.id == topic_id) = none := by
      apply List.find?_eq_none.2
      intro x hx
      simpa using h x hx
    simp [remove_topic_from_state, hfind]
  · intro pre t post hdec hid hpre
    obtain ⟨h1, h2, h3⟩ := remove_found_parts s topic_id pre t post hdec hid hpre
    obtain ⟨h4, h5, h6⟩ := remove_found_entry s topic_id pre t post hdec hid hpre
    refine ⟨h1, ?_, h3, h4, h5, h6⟩
    intro x hx
    rw [h2] at hx
    have := (List.mem_filter.1 hx).2
    simpa using this

/-- Concrete instance of C8 obtained from the theorem: removing a
nonexistent id changes nothing. -/
theorem remove_topic_spec_witness :
    remove_topic_from_state
        ⟨1, 2, none, [⟨"t", "e", "x", "a", "n", "m"⟩], false, false⟩ "zz" =
      (none, ⟨1, 2, none, [⟨"t", "e", "x", "a", "n", "m"⟩], false, false⟩) :=
  (remove_topic_spec
      ⟨1, 2, none, [⟨"t", "e", "x", "a", "n", "m"⟩], false, false⟩ "zz").1
    (by decide)

/-! ### C10: removal removes every occurrence of the id -/

/-- C10: when some topic carries the given id, remove_topic_from_state
returns the first such topic, afterwards no topic with that id remains,
and the surviving topics are exactly the other-id topics in their original
relative order (a sublist of the original list). -/
theorem remove_topic_removes_all (s : GuildTopicState) (topic_id : String)
    (pre : List Topic) (t : Topic) (post : List Topic)
    (hdec : s.topics = pre ++ t :: post) (hid : t.id = topic_id)
    (hpre : ∀ x ∈ pre, x.id ≠ topic_id) :
    (remove_topic_from_state s topic_id).1 = some t ∧
    (∀ x ∈ (remove_topic_from_state s topic_id).2.topics, x.id ≠ topic_id) ∧
    (remove_topic_from_state s topic_id).2.topics.Sublist s.topics ∧
    (∀ x ∈ s.topics, x.id ≠ topic_id →
      x ∈ (remove_topic_from_state s topic_id).2.topics) := by
  obtain ⟨h1, h2, _⟩ := remove_found_parts s topic_id pre t post hdec hid hpre
  refine ⟨h1, ?_, ?_, ?_⟩
  · intro x hx
    rw [h2] at hx
    have := (List.mem_filter.1 hx).2
    simpa using this
  · rw [h2]
    exact List.filter_sublist s.topics
  · intro x hx hxid
    rw [h2]
    refine List.mem_filter.2 ⟨hx, by simpa using hxid⟩

/-- Concrete instance of C10 obtained from the theorem: a duplicated id is
removed everywhere in one call. -/
theorem remove_topic_removes_all_witness :
    (remove_topic_from_state
        ⟨1, 2, none,
          [⟨"t", "e", "x", "a", "n", "m"⟩, ⟨"t", "f", "y", "a", "n", "m"⟩],
          false, false⟩ "t").1 = some ⟨"t", "e", "x", "a", "n", "m"⟩ ∧
    ∀ x ∈ (remove_topic_from_state
        ⟨1, 2, none,
          [⟨"t", "e", "x", "a", "n", "m"⟩, ⟨"t", "f", "y", "a", "n", "m"⟩],
          false, false⟩ "t").2.topics, x.id ≠ "t" :=
  ⟨(remove_topic_removes_all
      ⟨1, 2, none,
        [⟨"t", "e", "x", "a", "n", "m"⟩, ⟨"t", "f", "y", "a", "n", "m"⟩],
        false, false⟩ "t" [] ⟨"t", "e", "x", "a", "n", "m"⟩
      [⟨"t", "f", "y", "a", "n", "m"⟩] rfl rfl (by simp)).1,
   (remove_topic_removes_all
      ⟨1, 2, none,
        [⟨"t", "e", "x", "a", "n", "m"⟩, ⟨"t", "f", "y", "a", "n", "m"⟩],
        false, false⟩ "t" [] ⟨"t", "e", "x", "a", "n", "m"⟩
      [⟨"t", "f", "y", "a", "n", "m"⟩] rfl rfl (by simp)).2.1⟩

/-! ### C2: flush-once session semantics -/

/-- C2: a locked_state session runs save_state exactly once, on the state
the unit of work left behind, whether the unit of work returned or raised,
and propagates the outcome; save_state persists the board document (or
deletes it when the entry is absent) and clears registryDirty exactly when
that flag is set, replaces the stored topics with the in-memory list and
clears topicsDirty exactly when that flag is set, and performs no store
write for a clear flag. -/
theorem session_flush_spec {A : Type} (s0 : GuildTopicState) (store : Store)
    (uow : GuildTopicState → GuildTopicState × UowOutcome A)
    (s : GuildTopicState) :
    (run_session s0 store uow).1 = (save_state (uow s0).1 store).2 ∧
    (run_session s0 store uow).2 = (uow s0).2 ∧
    (s.registry_dirty = true → ∀ e, s.entry = some e →
      (save_state s store).2.board = some (e.to_doc (toString s.guild_id)) ∧
      (save_state s store).1.registry_dirty = false) ∧
    (s.registry_dirty = true → s.entry = none →
      (save_state s store).2.board = none ∧
      (save_state s store).1.registry_dirty = false) ∧
    (s.registry_dirty = false →
      (save_state s store).2.board = store.board) ∧
    (s.topics_dirty = true →
      (save_state s store).2.topics = s.topics ∧
      (save_state s store).1.topics_dirty = false) ∧
    (s.topics_dirty = false →
      (save_state s store).2.topics = store.topics) := by
  refine ⟨rfl, rfl, ?_, ?_, ?_, ?_, ?_⟩
  · intro hrd e hse
    cases htd : s.topics_dirty <;> simp [save_state, hrd, hse, htd]
  · intro hrd hse
    cases htd : s.topics_dirty <;> simp [save_state, hrd, hse, htd]
  · intro hrd
    cases htd : s.topics_dirty <;> simp [save_state, hrd, htd]
  · intro htd
    cases hrd : s.registry_dirty
    · simp [save_state, hrd, htd]
    · cases hse : s.entry <;> simp [save_state, hrd, htd, hse]
  · intro htd
    cases hrd : s.registry_dirty
    · simp [save_state, hrd, htd]
    · cases hse : s.entry <;> simp [save_state, hrd, htd, hse]

/-- Concrete instance of C2 obtained from the theorem: a dirty topics list
is written out and the flag cleared. -/
theorem session_flush_spec_witness :
    (save_state ⟨1, 2, none, [⟨"t", "e", "x", "a", "n", "m"⟩], false, true⟩
        ⟨none, []⟩).2.topics = [⟨"t", "e", "x", "a", "n", "m"⟩] ∧
    (save_state ⟨1, 2, none, [⟨"t", "e", "x", "a", "n", "m"⟩], false, true⟩
        ⟨none, []⟩).1.topics_dirty = false :=
  (@session_flush_spec Unit
      ⟨1, 2, none, [⟨"t", "e", "x", "a", "n", "m"⟩], false, true⟩
      ⟨none, []⟩ (fun s => (s, .raised))
      ⟨1, 2, none, [⟨"t", "e", "x", "a", "n", "m"⟩], false, true⟩).2.2.2.2.2.1 rfl

/-! ### Characterizing the normalization pass -/

/-- The orphan test of the normalization loop: an empty message_id, or one
matching no known slot id. -/
def isOrphan (ids : List String) (t : Topic) : Bool :=
  (t.message_id == "") || !(ids.contains t.message_id)

/-- The repair the normalization loop applies to one topic: orphans are
reassigned to the primary slot. -/
def fixTopic (ids : List String) (primary : String) (t : Topic) : Topic :=
  if isOrphan ids t then { t with message_id := primary } else t

theorem memberCount_cons (t : Topic) (l : List Topic) (mid : String) :
    memberCount (t :: l) mid =
      (if t.message_id == mid then 1 else 0) + memberCount l mid := by
  cases h : (t.message_id == mid) <;>
    simp [memberCount, List.filter_cons, h, Nat.add_comm]

theorem memberCount_append (l1 l2 : List Topic) (mid : String) :
    memberCount (l1 ++ l2) mid = memberCount l1 mid + memberCount l2 mid := by
  simp [memberCount, List.filter_append]

/-- The topic loop of normalize_entry_and_topics, in closed form: it maps
fixTopic over the topics, tallies membership of the fixed topics, and ors
together the orphan flags. -/
theorem normStep_foldl (ids : List String) (primary : String) :
    ∀ (ts : List Topic) (acc : List Topic) (c : String → Nat) (b : Bool),
      ts.foldl (normStep ids primary) (acc, c, b) =
        (acc ++ ts.map (fixTopic ids primary),
         fun mid => c mid + memberCount (ts.map (fixTopic ids primary)) mid,
         b || ts.any (isOrphan ids))
  | [], acc, c, b => by
    simp [memberCount]
  | t :: ts, acc, c, b => by
    rw [List.foldl_cons]
    have hstep : normStep ids primary (acc, c, b) t =
        (acc ++ [fixTopic ids primary t],
         fun mid => if mid == (fixTopic ids primary t).message_id
                    then c mid + 1 else c mid,
         b || isOrphan ids t) := rfl
    rw [hstep, normStep_foldl ids primary ts]
    refine congrArg₂ _ (by simp) (congrArg₂ _ ?_ (by simp [Bool.or_assoc]))
    funext mid
    rw [List.map_cons, memberCount_cons]
    by_cases hmid : (fixTopic ids primary t).message_id = mid
    · have h1 : (mid == (fixTopic ids primary t).message_id) = true := by
        simp [hmid]
      have h2 : ((fixTopic ids primary t).message_id == mid) = true := by
        simp [hmid]
      simp [h1, h2]
      omega
    · have h1 : (mid == (fixTopic ids primary t).message_id) = false := by
        simp [Ne.symm hmid]
      have h2 : ((fixTopic ids primary t).message_id == mid) = false := by
        simp [hmid]
      simp [h1, h2]

/-- normalize_entry_and_topics on an absent board. -/
theorem normalize_none_eq (ts : List Topic) :
    normalize_entry_and_topics none ts = (none, ts, false, false) := rfl

/-- normalize_entry_and_topics on a board with no message slots. -/
theorem normalize_nil_eq (e : GuildEntry) (hmsg : e.messages = []) (ts : List Topic) :
    normalize_entry_and_topics (some e) ts = (some e, ts, e.registry_dirty, false) := by
  rcases e with ⟨cid, wm, bh, cm, nm, msgs, rd⟩
  simp only at hmsg
  subst hmsg
  rfl

/-- Closed form of normalize_entry_and_topics on a board with at least one
slot: topics are repaired by fixTopic toward the first slot, counts are
recomputed as actual membership of the repaired topics, topics_changed
reports the presence of an orphan, and registry_changed ors the entry's own
registry_dirty flag with the presence of a count difference. -/
theorem normalize_some_eq (e : GuildEntry) (m0 : MessageEntry)
    (rest : List MessageEntry) (hmsg : e.messages = m0 :: rest) (ts : List Topic) :
    normalize_entry_and_topics (some e) ts =
      (some { e with messages := e.messages.map (fun m =>
          { m with count :=
              (memberCount (ts.map (fixTopic (slotIds e) m0.message_id))
                m.message_id : Int) }) },
       ts.map (fixTopic (slotIds e) m0.message_id),
       e.registry_dirty || e.messages.any (fun m =>
          m.count != (memberCount (ts.map (fixTopic (slotIds e) m0.message_id))
            m.message_id : Int)),
       ts.any (isOrphan (slotIds e))) := by
  rcases e with ⟨cid, wm, bh, cm, nm, msgs, rd⟩
  simp only at hmsg
  subst hmsg
  simp only [normalize_entry_and_topics, slotIds]
  rw [normStep_foldl]
  simp

/-! ### C5: normalization repairs orphans and recomputes counts -/

/-- Counterexample to C5 as stated: on a board whose own registry_dirty
flag is set, normalization reports registry changed even though every
recomputed count equals the stored count (here the single slot stores 1 and
exactly one topic sits on it), so the reported flag is not "exactly when
some recomputed count differs". -/
theorem normalize_repair_spec_cex :
    (normalize_entry_and_topics
        (some ⟨"c", "", "", "", "", [⟨"m", 1⟩], true⟩)
        [⟨"t", "e", "x", "a", "n", "m"⟩]).2.2.1 = true ∧
    (normalize_entry_and_topics
        (some ⟨"c", "", "", "", "", [⟨"m", 1⟩], true⟩)
        [⟨"t", "e", "x", "a", "n", "m"⟩]).2.1 =
      [⟨"t", "e", "x", "a", "n", "m"⟩] ∧
    ([(⟨"m", 1⟩ : MessageEntry)].all (fun m =>
      m.count == (memberCount [⟨"t", "e", "x", "a", "n", "m"⟩]
        m.message_id : Int))) = true := by
  refine ⟨rfl, rfl, rfl⟩

/-- C5 (amended): on a present board with a non-empty slot list,
normalization reassigns exactly the topics whose message_id is empty or
matches no slot id to the first slot's id, reports topics changed exactly
when such an orphan exists, recomputes every slot's count as the number of
repaired topics on that slot, and reports registry changed exactly when
some recomputed count differs from the stored one or the board's own
registry_dirty flag was already set. -/
theorem normalize_repair_spec (e : GuildEntry) (m0 : MessageEntry)
    (rest : List MessageEntry) (ts : List Topic)
    (hmsg : e.messages = m0 :: rest) :
    (normalize_entry_and_topics (some e) ts).2.1 =
      ts.map (fixTopic (slotIds e) m0.message_id) ∧
    (normalize_entry_and_topics (some e) ts).2.2.2 =
      ts.any (isOrphan (slotIds e)) ∧
    (normalize_entry_and_topics (some e) ts).1 =
      some { e with messages := e.messages.map (fun m => { m with count :=
        (memberCount ((normalize_entry_and_topics (some e) ts).2.1)
          m.message_id : Int) }) } ∧
    (normalize_entry_and_topics (some e) ts).2.2.1 =
      (e.registry_dirty || e.messages.any (fun m =>
        m.count != (memberCount ((normalize_entry_and_topics (some e) ts).2.1)
          m.message_id : Int))) := by
  rw [normalize_some_eq e m0 rest hmsg ts]
  exact ⟨rfl, rfl, rfl, rfl⟩

/-- Concrete instance of C5 obtained from the theorem: a topic pointing at
an unknown message is reassigned to the first slot. -/
theorem normalize_repair_spec_witness :
    (normalize_entry_and_topics
        (some ⟨"c", "", "", "", "", [⟨"m", 0⟩], false⟩)
        [⟨"t", "e", "x", "a", "n", "zz"⟩]).2.1 =
      [⟨"t", "e", "x", "a", "n", "m"⟩] :=
  ((normalize_repair_spec ⟨"c", "", "", "", "", [⟨"m", 0⟩], false⟩
      ⟨"m", 0⟩ [] [⟨"t", "e", "x", "a", "n", "zz"⟩] rfl).1).trans (by rfl)

/-! ### C3: idempotence of normalization -/

/-- Repairing a repaired topic changes nothing. -/
theorem fixTopic_idem (ids : List String) (primary : String) (t : Topic) :
    fixTopic ids primary (fixTopic ids primary t) = fixTopic ids primary t := by
  rcases t with ⟨i, em, tx, a, n, mid⟩
  by_cases h : isOrphan ids ⟨i, em, tx, a, n, mid⟩ = true
  · simp only [fixTopic, h, if_true]
    by_cases h2 : isOrphan ids ⟨i, em, tx, a, n, primary⟩ = true
    · simp [h2]
    · simp [h2]
  · have h1 : isOrphan ids ⟨i, em, tx, a, n, mid⟩ = false := by simpa using h
    simp [fixTopic, h1]

/-- A repaired topic is not an orphan when the primary slot id is a real,
non-empty slot id. -/
theorem isOrphan_fixTopic (ids : List String) (primary : String)
    (hmem : primary ∈ ids) (hne : primary ≠ "") (t : Topic) :
    isOrphan ids (fixTopic ids primary t) = false := by
  by_cases h : isOrphan ids t = true
  · unfold fixTopic
    rw [if_pos h]
    simp [isOrphan]
    exact ⟨hne, hmem⟩
  · have h1 : isOrphan ids t = false := by simpa using h
    simp [fixTopic, h1]

/-- The repair does not touch a topic's id. -/
theorem fixTopic_id (ids : List String) (primary : String) (t : Topic) :
    (fixTopic ids primary t).id = t.id := by
  by_cases h : isOrphan ids t = true
  · simp [fixTopic, h]
  · have h1 : isOrphan ids t = false := by simpa using h
    simp [fixTopic, h1]

/-- Rewriting every slot count leaves the slot ids unchanged. -/
theorem slotIds_map_counts (e : GuildEntry) (f : MessageEntry → Int) :
    slotIds { e with messages :=
        e.messages.map (fun m => { m with count := f m }) } = slotIds e := by
  simp only [slotIds, List.map_map]
  rfl

/-- On an input whose counts already equal actual membership and whose
topics the repair map fixes pointwise, normalization returns its input
together with the entry's own registry_dirty flag and the orphan test. -/
theorem normalize_stable (e : GuildEntry) (ts : List Topic)
    (m0 : MessageEntry) (rest : List MessageEntry)
    (hmsg : e.messages = m0 :: rest)
    (hcounts : ∀ m ∈ e.messages, m.count = (memberCount ts m.message_id : Int))
    (hfix : ts.map (fixTopic (slotIds e) m0.message_id) = ts) :
    normalize_entry_and_topics (some e) ts =
      (some e, ts, e.registry_dirty, ts.any (isOrphan (slotIds e))) := by
  rw [normalize_some_eq e m0 rest hmsg ts, hfix]
  have hmap : e.messages.map (fun m =>
      { m with count := (memberCount ts m.message_id : Int) }) = e.messages := by
    conv_rhs => rw [← List.map_id e.messages]
    apply List.map_congr_left
    intro m hm
    rcases m with ⟨mid, cnt⟩
    have := hcounts ⟨mid, cnt⟩ hm
    simp at this
    simp [this]
  have hany : e.messages.any (fun m =>
      m.count != (memberCount ts m.message_id : Int)) = false := by
    rw [List.any_eq_false]
    intro m hm
    rw [hcounts m hm]
    simp
  rw [hmap, hany]
  simp

/-- Whether the first slot of the entry, if any, has a non-empty id.  Slot
ids loaded through MessageEntry.from_dict are never empty, so loaded boards
always satisfy this. -/
def firstSlotNonempty : Option GuildEntry → Bool
  | some e =>
    match e.messages with
    | m0 :: _ => !(m0.message_id == "")
    | [] => true
  | none => true

/-- Counterexample to C3 as stated: on a board whose own registry_dirty
flag is set, the second normalization pass still reports registry changed
instead of reporting no further change. -/
theorem normalize_idem_cex :
    (normalize_entry_and_topics
        (normalize_entry_and_topics
          (some ⟨"ch", "", "", "", "", [⟨"a", 0⟩], true⟩) []).1
        (normalize_entry_and_topics
          (some ⟨"ch", "", "", "", "", [⟨"a", 0⟩], true⟩) []).2.1).2.2.1 = true := by
  rfl

/-- C3 (amended): normalization applied to its own output returns the very
same entry and topics; the second run reports topics changed false whenever
the first slot id is non-empty, and reports registry changed exactly the
entry's own persisted registry_dirty flag (false for an absent entry) - so
both reported flags are false whenever that flag is clear. -/
theorem normalize_idem (entry : Option GuildEntry) (ts : List Topic) :
    (normalize_entry_and_topics
        (normalize_entry_and_topics entry ts).1
        (normalize_entry_and_topics entry ts).2.1).1 =
      (normalize_entry_and_topics entry ts).1 ∧
    (normalize_entry_and_topics
        (normalize_entry_and_topics entry ts).1
        (normalize_entry_and_topics entry ts).2.1).2.1 =
      (normalize_entry_and_topics entry ts).2.1 ∧
    (firstSlotNonempty entry = true →
      (normalize_entry_and_topics
          (normalize_entry_and_topics entry ts).1
          (normalize_entry_and_topics entry ts).2.1).2.2.2 = false) ∧
    (normalize_entry_and_topics
        (normalize_entry_and_topics entry ts).1
        (normalize_entry_and_topics entry ts).2.1).2.2.1 =
      (match (normalize_entry_and_topics entry ts).1 with
       | some e => e.registry_dirty
       | none => false) := by
  match entry with
  | none => exact ⟨rfl, rfl, fun _ => rfl, rfl⟩
  | some e =>
    match hmsg : e.messages with
    | [] =>
      rw [normalize_nil_eq e hmsg ts]
      rw [normalize_nil_eq e hmsg ts]
      exact ⟨rfl, rfl, fun _ => rfl, rfl⟩
    | m0 :: rest =>
      have hmem : m0.message_id ∈ slotIds e := by
        rw [slotIds, hmsg]
        exact List.mem_map_of_mem _ (by simp)
      have hmapmap :
          (ts.map (fixTopic (slotIds e) m0.message_id)).map
              (fixTopic (slotIds e) m0.message_id) =
            ts.map (fixTopic (slotIds e) m0.message_id) := by
        rw [List.map_map]
        exact List.map_congr_left
          (fun t _ => fixTopic_idem (slotIds e) m0.message_id t)
      have h1 := normalize_some_eq e m0 rest hmsg ts
      have h1a : (normalize_entry_and_topics (some e) ts).1 =
          some { e with messages := e.messages.map (fun m =>
            { m with count :=
                (memberCount (ts.map (fixTopic (slotIds e) m0.message_id))
                  m.message_id : Int) }) } := by rw [h1]
      have h1b : (normalize_entry_and_topics (some e) ts).2.1 =
          ts.map (fixTopic (slotIds e) m0.message_id) := by rw [h1]
      have hmsg1 :
          ({ e with messages := e.messages.map (fun m =>
              { m with count :=
                  (memberCount (ts.map (fixTopic (slotIds e) m0.message_id))
                    m.message_id : Int) }) } : GuildEntry).messages =
            { m0 with count :=
                (memberCount (ts.map (fixTopic (slotIds e) m0.message_id))
                  m0.message_id : Int) } ::
              rest.map (fun m =>
                { m with count :=
                    (memberCount (ts.map (fixTopic (slotIds e) m0.message_id))
                      m.message_id : Int) }) := by
        simp [hmsg]
      have hcounts1 : ∀ m ∈ ({ e with messages := e.messages.map (fun m =>
          { m with count :=
              (memberCount (ts.map (fixTopic (slotIds e) m0.message_id))
                m.message_id : Int) }) } : GuildEntry).messages,
          m.count = (memberCount (ts.map (fixTopic (slotIds e) m0.message_id))
            m.message_id : Int) := by
        intro m hm
        rcases List.mem_map.1 hm with ⟨u, _, rfl⟩
        rfl
      have hfix1 : (ts.map (fixTopic (slotIds e) m0.message_id)).map
          (fixTopic
            (slotIds { e with messages := e.messages.map (fun m =>
              { m with count :=
                  (memberCount (ts.map (fixTopic (slotIds e) m0.message_id))
                    m.message_id : Int) }) })
            m0.message_id) =
          ts.map (fixTopic (slotIds e) m0.message_id) := by
        rw [slotIds_map_counts]
        exact hmapmap
      have h2 := normalize_stable _ _ _ _ hmsg1 hcounts1 hfix1
      rw [h1a, h1b, h2]
      refine ⟨rfl, rfl, ?_, rfl⟩
      intro hfirst
      have hne : m0.message_id ≠ "" := by
        simp [firstSlotNonempty, hmsg] at hfirst
        exact hfirst
      rw [slotIds_map_counts, List.any_eq_false]
      intro t ht
      rcases List.mem_map.1 ht with ⟨u, _, rfl⟩
      simp [isOrphan_fixTopic (slotIds e) m0.message_id hmem hne u]

/-- Concrete instance of C3 obtained from the theorem: after one repairing
pass (an orphan got reassigned), the second pass reports no topics change. -/
theorem normalize_idem_witness :
    (normalize_entry_and_topics
        (normalize_entry_and_topics
          (some ⟨"c", "", "", "", "", [⟨"m", 2⟩], false⟩)
          [⟨"t", "e", "x", "a", "n", "zz"⟩]).1
        (normalize_entry_and_topics
          (some ⟨"c", "", "", "", "", [⟨"m", 2⟩], false⟩)
          [⟨"t", "e", "x", "a", "n", "zz"⟩]).2.1).2.2.2 = false :=
  (normalize_idem (some ⟨"c", "", "", "", "", [⟨"m", 2⟩], false⟩)
    [⟨"t", "e", "x", "a", "n", "zz"⟩]).2.2.1 (by rfl)

/-! ### C1: the count/topic invariant -/

/-- Filtering out one slot id does not change membership counts at another. -/
theorem memberCount_filter_out (ts : List Topic) (mid1 mid2 : String)
    (h : mid1 ≠ mid2) :
    memberCount (ts.filter (fun t => !(t.message_id == mid2))) mid1 =
      memberCount ts mid1 := by
  unfold memberCount
  rw [List.filter_filter]
  congr 1
  apply List.filter_congr
  intro t _
  by_cases ht : t.message_id = mid1
  · simp [ht, h]
  · simp [ht]

/-- The membership count of one topic at a slot id. -/
theorem memberCount_singleton (t : Topic) (mid : String) :
    memberCount [t] mid = if t.message_id == mid then 1 else 0 := by
  rw [memberCount_cons]
  simp [memberCount]

/-- Summing actual membership over a duplicate-free slot id list that
covers every topic counts every topic exactly once. -/
theorem sum_memberCounts :
    ∀ (msgs : List MessageEntry) (ts : List Topic),
      ((msgs.map (fun m => m.message_id)).Nodup) →
      (∀ t ∈ ts, t.message_id ∈ msgs.map (fun m => m.message_id)) →
      (msgs.map (fun m => memberCount ts m.message_id)).sum = ts.length
  | [], ts, _, hpl => by
    have : ts = [] := by
      apply List.eq_nil_iff_forall_not_mem.2
      intro t ht
      simpa using hpl t ht
    simp [this]
  | m :: msgs, ts, hnd, hpl => by
    rw [List.map_cons] at hnd
    have hnotin : m.message_id ∉ msgs.map (fun x => x.message_id) :=
      (List.nodup_cons.1 hnd).1
    have hnd2 : (msgs.map (fun x => x.message_id)).Nodup :=
      (List.nodup_cons.1 hnd).2
    have hrw : msgs.map (fun x => memberCount ts x.message_id) =
        msgs.map (fun x => memberCount
          (ts.filter (fun t => !(t.message_id == m.message_id))) x.message_id) := by
      apply List.map_congr_left
      intro x hx
      have hne : x.message_id ≠ m.message_id := by
        intro hcontra
        exact hnotin (hcontra ▸ List.mem_map_of_mem _ hx)
      exact (memberCount_filter_out ts x.message_id m.message_id hne).symm
    have hih := sum_memberCounts msgs
      (ts.filter (fun t => !(t.message_id == m.message_id))) hnd2 (by
        intro t ht
        have htmem := List.mem_filter.1 ht
        have hne : t.message_id ≠ m.message_id := by simpa using htmem.2
        have := hpl t htmem.1
        rw [List.map_cons] at this
        rcases List.mem_cons.1 this with h | h
        · exact absurd h hne
        · exact h)
    have hpart := length_filter_partition
      (fun t : Topic => t.message_id == m.message_id) ts
    rw [List.map_cons, List.sum_cons, hrw, hih]
    unfold memberCount
    omega

/-- Casting a sum of naturals slotwise into the integers. -/
theorem sum_map_natCast (msgs : List MessageEntry) (f : MessageEntry → Nat) :
    (msgs.map (fun m => (f m : Int))).sum = ((msgs.map f).sum : Int) := by
  induction msgs with
  | nil => simp
  | cons m msgs ih => simp [ih]

/-- The session invariant: duplicate-free topic ids, a present board with
duplicate-free slot ids, every cached count equal to actual membership, and
every topic placed on a known slot. -/
def stateInv (s : GuildTopicState) : Prop :=
  (s.topics.map (fun t => t.id)).Nodup ∧
  ∃ e, s.entry = some e ∧ (slotIds e).Nodup ∧
    (∀ m ∈ e.messages, m.count = (memberCount s.topics m.message_id : Int)) ∧
    (∀ t ∈ s.topics, t.message_id ∈ slotIds e)

/-- Under the session invariant the cached counts sum to the topic count. -/
theorem stateInv_sum (s : GuildTopicState) (hinv : stateInv s) :
    ∀ e, s.entry = some e → sumCounts e = (s.topics.length : Int) := by
  intro e hse
  obtain ⟨_, e1, hse1, hnd, hcounts, hplaced⟩ := hinv
  rw [hse] at hse1
  cases hse1
  unfold sumCounts
  have hcong : e.messages.map (fun m => m.count) =
      e.messages.map (fun m => (memberCount s.topics m.message_id : Int)) :=
    List.map_congr_left (fun m hm => hcounts m hm)
  rw [hcong, sum_map_natCast e.messages (fun m => memberCount s.topics m.message_id),
    sum_memberCounts e.messages s.topics hnd hplaced]

/-- A repaired topic lands on a known slot id. -/
theorem fixTopic_placed (ids : List String) (primary : String)
    (hmem : primary ∈ ids) (t : Topic) :
    (fixTopic ids primary t).message_id ∈ ids := by
  by_cases h : isOrphan ids t = true
  · unfold fixTopic
    rw [if_pos h]
    exact hmem
  · have h1 : isOrphan ids t = false := by simpa using h
    unfold fixTopic
    rw [if_neg (by simp [h1])]
    have := h1
    unfold isOrphan at this
    rcases Bool.or_eq_false_iff.1 this with ⟨_, hc⟩
    have : ids.contains t.message_id = true := by
      cases hcc : ids.contains t.message_id
      · rw [hcc] at hc; simp at hc
      · rfl
    simpa using this

/-- Load-plus-normalization establishes the session invariant, given
duplicate-free slot ids and topic ids. -/
theorem stateInv_normState (gid cid : Int) (e : GuildEntry) (ts : List Topic)
    (m0 : MessageEntry) (rest : List MessageEntry)
    (hmsg : e.messages = m0 :: rest)
    (hslots : (slotIds e).Nodup)
    (hids : (ts.map (fun t => t.id)).Nodup) :
    stateInv (normState gid cid (some e) ts) := by
  have hmem : m0.message_id ∈ slotIds e := by
    rw [slotIds, hmsg]
    exact List.mem_map_of_mem _ (by simp)
  have h1 := normalize_some_eq e m0 rest hmsg ts
  constructor
  · show ((normState gid cid (some e) ts).topics.map (fun t => t.id)).Nodup
    have : (normState gid cid (some e) ts).topics =
        ts.map (fixTopic (slotIds e) m0.message_id) := by
      unfold normState
      rw [h1]
    rw [this, List.map_map]
    have : ts.map ((fun t : Topic => t.id) ∘ fixTopic (slotIds e) m0.message_id) =
        ts.map (fun t => t.id) :=
      List.map_congr_left (fun t _ => fixTopic_id (slotIds e) m0.message_id t)
    rw [this]
    exact hids
  · refine ⟨{ e with messages := e.messages.map (fun m =>
      { m with count :=
          (memberCount (ts.map (fixTopic (slotIds e) m0.message_id))
            m.message_id : Int) }) }, ?_, ?_, ?_, ?_⟩
    · unfold normState
      rw [h1]
    · rw [slotIds_map_counts]
      exact hslots
    · intro m hm
      rcases List.mem_map.1 hm with ⟨u, _, rfl⟩
      show (memberCount (ts.map (fixTopic (slotIds e) m0.message_id))
          u.message_id : Int) =
        (memberCount (normState gid cid (some e) ts).topics u.message_id : Int)
      have : (normState gid cid (some e) ts).topics =
          ts.map (fixTopic (slotIds e) m0.message_id) := by
        unfold normState
        rw [h1]
      rw [this]
    · intro t ht
      have htop : (normState gid cid (some e) ts).topics =
          ts.map (fixTopic (slotIds e) m0.message_id) := by
        unfold normState
        rw [h1]
      rw [htop] at ht
      rcases List.mem_map.1 ht with ⟨u, _, rfl⟩
      rw [slotIds_map_counts]
      exact fixTopic_placed (slotIds e) m0.message_id hmem u

/-- In a duplicate-free projection, the elements after an occurrence differ
from it under the projection. -/
theorem nodup_middle_not_mem {α β : Type} (f : α → β)
    (pre : List α) (a : α) (post : List α)
    (hnd : ((pre ++ a :: post).map f).Nodup) : ∀ x ∈ post, f x ≠ f a := by
  rw [List.map_append, List.map_cons] at hnd
  have h2 : (f a :: post.map f).Nodup :=
    hnd.sublist (List.sublist_append_right _ _)
  have h3 := (List.nodup_cons.1 h2).1
  intro x hx hcontra
  exact h3 (hcontra ▸ List.mem_map_of_mem f hx)

/-- Updating one slot's count in place keeps the slot id list. -/
theorem slotIds_set_count (e : GuildEntry) (mpre : List MessageEntry)
    (mm : MessageEntry) (mpost : List MessageEntry) (c : Int)
    (hmdec : e.messages = mpre ++ mm :: mpost) :
    slotIds { e with messages := mpre ++ { mm with count := c } :: mpost } =
      slotIds e := by
  rw [slotIds, slotIds, hmdec]
  simp

/-- Each valid in-session mutation preserves the session invariant. -/
theorem stateInv_applyOp (s : GuildTopicState) (op : TopicOp)
    (hinv : stateInv s) (hop : opValid s op = true) :
    stateInv (applyOp s op) := by
  obtain ⟨hndIds, e, hse, hndSlots, hcounts, hplaced⟩ := hinv
  cases op with
  | add i em tx a n mid =>
    simp only [opValid, hse, List.contains, Bool.and_eq_true, List.elem_eq_mem,
      Bool.not_eq_true', decide_eq_false_iff_not, decide_eq_true_eq] at hop
    obtain ⟨hfresh, hmid⟩ := hop
    have hmid2 := hmid
    rw [slotIds] at hmid2
    obtain ⟨mpre, mm, mpost, hmdec, hmmid, hmpre⟩ := mem_map_first_decomp hmid2
    have hbump := bumpFirst_found hmmid mpost hmpre
    have heq : applyOp s (.add i em tx a n mid) =
        { s with
          topics := s.topics ++ [⟨i, em, tx, a, n, mid⟩],
          topics_dirty := true,
          entry := some { e with
            messages := mpre ++ { mm with count := mm.count + 1 } :: mpost },
          registry_dirty := true } := by
      simp [applyOp, add_topic_to_state, hse, hmdec, hbump]
    rw [heq]
    have hslotEq : slotIds { e with
        messages := mpre ++ { mm with count := mm.count + 1 } :: mpost } =
      slotIds e := slotIds_set_count e mpre mm mpost (mm.count + 1) hmdec
    constructor
    · show ((s.topics ++ [(⟨i, em, tx, a, n, mid⟩ : Topic)]).map
        (fun t => t.id)).Nodup
      rw [List.map_append]
      refine List.nodup_append.2 ⟨hndIds, by simp, ?_⟩
      intro x hx hxmem
      rcases List.mem_singleton.1 (by simpa using hxmem) with rfl
      exact hfresh hx
    · refine ⟨_, rfl, ?_, ?_, ?_⟩
      · rw [hslotEq]
        exact hndSlots
      · intro m1 hm1
        have hndSlots2 : ((mpre ++ mm :: mpost).map
            (fun m : MessageEntry => m.message_id)).Nodup := by
          rw [← hmdec]
          exact hndSlots
        have hpost := nodup_middle_not_mem _ mpre mm mpost hndSlots2
        rcases List.mem_append.1 hm1 with hm1 | hm1
        · have hmold : m1 ∈ e.messages := by
            rw [hmdec]
            exact List.mem_append_left _ hm1
          have hne : (mid == m1.message_id) = false := by
            have := hmpre m1 hm1
            simp
            intro hcontra
            exact (this (by rw [hcontra])).elim
          show m1.count =
            (memberCount (s.topics ++ [⟨i, em, tx, a, n, mid⟩])
              m1.message_id : Int)
          rw [memberCount_append, memberCount_singleton]
          show m1.count =
            ((memberCount s.topics m1.message_id +
              if ((⟨i, em, tx, a, n, mid⟩ : Topic).message_id == m1.message_id)
              then 1 else 0 : Nat) : Int)
          rw [show ((⟨i, em, tx, a, n, mid⟩ : Topic).message_id) = mid from rfl,
            hne]
          simpa using hcounts m1 hmold
        · rcases List.mem_cons.1 hm1 with rfl | hm1
          · have hmmMem : mm ∈ e.messages := by
              rw [hmdec]
              exact List.mem_append_right _ (by simp)
            have hc := hcounts mm hmmMem
            rw [hmmid] at hc
            show mm.count + 1 =
              (memberCount (s.topics ++ [⟨i, em, tx, a, n, mid⟩])
                mm.message_id : Int)
            rw [memberCount_append, memberCount_singleton]
            rw [show ((⟨i, em, tx, a, n, mid⟩ : Topic).message_id) = mid from rfl]
            rw [hmmid, hc]
            simp
          · have hmold : m1 ∈ e.messages := by
              rw [hmdec]
              exact List.mem_append_right _ (List.mem_cons_of_mem mm hm1)
            have hne : (mid == m1.message_id) = false := by
              have := hpost m1 hm1
              rw [hmmid] at this
              simp
              intro hcontra
              exact (this (by rw [hcontra])).elim
            show m1.count =
              (memberCount (s.topics ++ [⟨i, em, tx, a, n, mid⟩])
                m1.message_id : Int)
            rw [memberCount_append, memberCount_singleton]
            show m1.count =
              ((memberCount s.topics m1.message_id +
                if ((⟨i, em, tx, a, n, mid⟩ : Topic).message_id == m1.message_id)
                then 1 else 0 : Nat) : Int)
            rw [show ((⟨i, em, tx, a, n, mid⟩ : Topic).message_id) = mid from rfl,
              hne]
            simpa using hcounts m1 hmold
      · intro t ht
        rw [hslotEq]
        rcases List.mem_append.1 ht with ht | ht
        · exact hplaced t ht
        · rcases List.mem_singleton.1 (by simpa using ht) with rfl
          exact hmid
  | remove tid =>
    cases hfind : s.topics.find? (fun t => t.id == tid) with
    | none =>
      have heq : applyOp s (.remove tid) = s := by
        simp [applyOp, remove_topic_from_state, hfind]
      rw [heq]
      exact ⟨hndIds, e, hse, hndSlots, hcounts, hplaced⟩
    | some target =>
      obtain ⟨pre, post, hdec, hp, hpre⟩ := find?_decomp hfind
      have htid : target.id = tid := by simpa using hp
      have hpre2 : ∀ x ∈ pre, x.id ≠ tid := by
        intro x hx
        simpa using hpre x hx
      have hndIds2 : ((pre ++ target :: post).map (fun t : Topic => t.id)).Nodup := by
        rw [← hdec]
        exact hndIds
      have hpost : ∀ x ∈ post, x.id ≠ tid := by
        intro x hx
        rw [← htid]
        exact nodup_middle_not_mem _ pre target post hndIds2 x hx
      have hfilter : s.topics.filter (fun t => !(t.id == tid)) = pre ++ post := by
        rw [hdec, List.filter_append, List.filter_cons]
        have hcond : (!(target.id == tid)) = false := by simp [htid]
        rw [hcond]
        have h1 : pre.filter (fun t => !(t.id == tid)) = pre :=
          List.filter_eq_self.2 (fun x hx => by simpa using hpre2 x hx)
        have h2 : post.filter (fun t => !(t.id == tid)) = post :=
          List.filter_eq_self.2 (fun x hx => by simpa using hpost x hx)
        rw [h1, h2]
        simp
      have htargetMem : target ∈ s.topics := by
        rw [hdec]
        exact List.mem_append_right _ (by simp)
      have htmid : target.message_id ∈ slotIds e := hplaced target htargetMem
      have htmid2 := htmid
      rw [slotIds] at htmid2
      obtain ⟨mpre, mm, mpost, hmdec, hmmid, hmpre⟩ := mem_map_first_decomp htmid2
      have hdecf := decFirst_found hmmid mpost hmpre
      have heq : applyOp s (.remove tid) =
          { s with
            topics := pre ++ post,
            topics_dirty := true,
            entry := some { e with
              messages := mpre ++
                { mm with count := max (mm.count - 1) 0 } :: mpost },
            registry_dirty := true } := by
        simp [applyOp, remove_topic_from_state, hfind, hse, hmdec, hdecf, hfilter]
      rw [heq]
      have hslotEq : slotIds { e with
          messages := mpre ++ { mm with count := max (mm.count - 1) 0 } :: mpost } =
        slotIds e := slotIds_set_count e mpre mm mpost (max (mm.count - 1) 0) hmdec
      have hsub : (pre ++ post).Sublist s.topics := by
        rw [hdec]
        exact (List.sublist_cons_self target post).append_left pre
      constructor
      · show ((pre ++ post).map (fun t => t.id)).Nodup
        exact hndIds.sublist (hsub.map _)
      · have hndSlots2 : ((mpre ++ mm :: mpost).map
            (fun m : MessageEntry => m.message_id)).Nodup := by
          rw [← hmdec]
          exact hndSlots
        have hmpost := nodup_middle_not_mem _ mpre mm mpost hndSlots2
        refine ⟨_, rfl, ?_, ?_, ?_⟩
        · rw [hslotEq]
          exact hndSlots
        · intro m1 hm1
          rcases List.mem_append.1 hm1 with hm1 | hm1
          · have hmold : m1 ∈ e.messages := by
              rw [hmdec]
              exact List.mem_append_left _ hm1
            have hne : (target.message_id == m1.message_id) = false := by
              have := hmpre m1 hm1
              simp
              intro hcontra
              exact (this (by rw [hcontra])).elim
            have hc := hcounts m1 hmold
            rw [hdec, memberCount_append, memberCount_cons, hne] at hc
            show m1.count = (memberCount (pre ++ post) m1.message_id : Int)
            rw [memberCount_append]
            simpa using hc
          · rcases List.mem_cons.1 hm1 with rfl | hm1
            · have hmmMem : mm ∈ e.messages := by
                rw [hmdec]
                exact List.mem_append_right _ (by simp)
              have hc := hcounts mm hmmMem
              have hself : (target.message_id == mm.message_id) = true := by
                simp [hmmid]
              rw [hdec, memberCount_append, memberCount_cons, hself] at hc
              have hc2 : mm.count =
                  ((memberCount pre mm.message_id +
                    (1 + memberCount post mm.message_id) : Nat) : Int) := by
                simpa using hc
              show max (mm.count - 1) 0 =
                (memberCount (pre ++ post) mm.message_id : Int)
              rw [memberCount_append, hc2]
              push_cast
              omega
            · have hmold : m1 ∈ e.messages := by
                rw [hmdec]
                exact List.mem_append_right _ (List.mem_cons_of_mem mm hm1)
              have hne : (target.message_id == m1.message_id) = false := by
                have := hmpost m1 hm1
                rw [hmmid] at this
                simp
                intro hcontra
                exact (this (by rw [hcontra])).elim
              have hc := hcounts m1 hmold
              rw [hdec, memberCount_append, memberCount_cons, hne] at hc
              show m1.count = (memberCount (pre ++ post) m1.message_id : Int)
              rw [memberCount_append]
              simpa using hc
        · intro t ht
          rw [hslotEq]
          exact hplaced t (hsub.mem ht)

/-- A whole valid operation sequence preserves the session invariant. -/
theorem stateInv_runOps :
    ∀ (ops : List TopicOp) (s : GuildTopicState),
      stateInv s → validSeq s ops = true → stateInv (runOps s ops)
  | [], s, hinv, _ => hinv
  | op :: ops, s, hinv, hval => by
    rw [validSeq, Bool.and_eq_true] at hval
    have h1 := stateInv_applyOp s op hinv hval.1
    have h2 := stateInv_runOps ops (applyOp s op) h1 hval.2
    simpa [runOps] using h2

/-- Counterexample to C1 as stated: a board with two slots sharing one
message id (and non-empty message list).  Already after load-plus-
normalization, with an empty operation sequence, the slot counts sum to 2
while a single topic is stored. -/
theorem count_topic_invariant_cex :
    (runOps (normState 1 2
        (some ⟨"c", "", "", "", "", [⟨"m", 5⟩, ⟨"m", 7⟩], false⟩)
        [⟨"t", "e", "x", "a", "n", "m"⟩]) []).entry =
      some ⟨"c", "", "", "", "", [⟨"m", 1⟩, ⟨"m", 1⟩], false⟩ ∧
    sumCounts ⟨"c", "", "", "", "", [⟨"m", 1⟩, ⟨"m", 1⟩], false⟩ = 2 ∧
    (runOps (normState 1 2
        (some ⟨"c", "", "", "", "", [⟨"m", 5⟩, ⟨"m", 7⟩], false⟩)
        [⟨"t", "e", "x", "a", "n", "m"⟩]) []).topics.length = 1 := by
  refine ⟨by decide, by decide, by decide⟩

/-- C1 (amended): starting from a raw board with a non-empty slot list
whose slot ids are pairwise distinct and raw topics with pairwise distinct
ids, after load-plus-normalization and after any valid sequence of
add_topic_to_state / remove_topic_from_state calls (valid: every add
receives a topic id not currently present and targets an existing slot id,
as a session does), the board is still present and its slot counts sum to
the length of the topics list. -/
theorem count_topic_invariant (gid cid : Int) (e : GuildEntry)
    (ts : List Topic) (ops : List TopicOp)
    (hne : e.messages ≠ [])
    (hslots : (slotIds e).Nodup)
    (hids : (ts.map (fun t => t.id)).Nodup)
    (hval : validSeq (normState gid cid (some e) ts) ops = true) :
    (runOps (normState gid cid (some e) ts) ops).entry.isSome = true ∧
    ∀ e1, (runOps (normState gid cid (some e) ts) ops).entry = some e1 →
      sumCounts e1 =
        ((runOps (normState gid cid (some e) ts) ops).topics.length : Int) := by
  obtain ⟨m0, rest, hmsg⟩ : ∃ m0 rest, e.messages = m0 :: rest := by
    cases hm : e.messages with
    | nil => exact absurd hm hne
    | cons m0 rest => exact ⟨m0, rest, rfl⟩
  have hinv0 := stateInv_normState gid cid e ts m0 rest hmsg hslots hids
  have hinv := stateInv_runOps ops _ hinv0 hval
  obtain ⟨_, e1, hse1, _, _, _⟩ := hinv
  constructor
  · rw [hse1]
    rfl
  · intro e2 hse2
    rw [hse1] at hse2
    cases hse2
    exact stateInv_sum _ (stateInv_runOps ops _ hinv0 hval) e1 hse1

/-- Concrete instance of C1 obtained from the theorem: one slot, one add
followed by a remove of a different topic id sequence; counts match. -/
theorem count_topic_invariant_witness :
    sumCounts ⟨"c", "", "", "", "", [⟨"m", 1⟩], false⟩ =
      ((runOps (normState 1 2
          (some ⟨"c", "", "", "", "", [⟨"m", 0⟩], false⟩) [])
          [TopicOp.add "i1" "e1" "x" "a" "n" "m"]).topics.length : Int) :=
  (count_topic_invariant 1 2 ⟨"c", "", "", "", "", [⟨"m", 0⟩], false⟩ []
      [TopicOp.add "i1" "e1" "x" "a" "n" "m"]
      (by decide) (by decide) (by decide) (by decide)).2
    ⟨"c", "", "", "", "", [⟨"m", 1⟩], false⟩ (by decide)

end TopicBot
